import Mathlib

/-!
# Verification of the MultiQC Prokka module (`multiqc/modules/prokka/prokka.py`)

This file gives a shallow embedding, in Lean 4, of the Prokka summary-file
parser and aggregation logic of the MultiQC Prokka module, and proves (or
refutes) the specification claims about it.

Modelling conventions:
* A file is a list of logical lines (`List String`), without their trailing
  newline characters. Since Python's `str.split()` with no arguments and
  `int()` both discard surrounding whitespace, and `str.startswith` is not
  affected by a trailing newline, dropping the newline is observationally
  equivalent for every operation the module performs on a line.
* Python strings are modelled as Lean `String`s, with the handful of `str`
  methods the module uses re-implemented character-by-character below
  (`pyStrip`, `pySplitWs`, `pySplit`, `pySplit1`, `pyStartsWith`, `pyInt`)
  so that they follow CPython's documented semantics for ASCII text.
* The mutable dict `self.prokka` is modelled as an insertion-ordered
  association list with Python's dict semantics: assignment to an existing
  key updates the entry in place, assignment to a fresh key appends.
* Exceptions (the uncaught `ValueError`s that `int(...)` and tuple
  unpacking can raise inside `parse_prokka`) are modelled by an `Outcome`
  value; the table state carried alongside is the state at the moment the
  exception propagates.
-/

/-- Python's whitespace predicate for ASCII characters (`str.isspace`),
which drives `str.split()`, `str.strip()` and `int()`'s surrounding
whitespace tolerance. -/
def pyIsSpace (c : Char) : Bool :=
  c = ' ' || c = '\t' || c = '\n' || c = '\r' || c = '\x0b' || c = '\x0c'

/-- `str.split(sep)` for a single-character separator, on character lists:
splits at every occurrence of `sep`, keeping empty pieces
(`"a::b" -> ["a", "", "b"]`, `"" -> [""]`). -/
def splitAllC (sep : Char) : List Char → List (List Char)
  | [] => [[]]
  | c :: cs =>
    if c = sep then [] :: splitAllC sep cs
    else
      match splitAllC sep cs with
      | [] => [[c]]
      | t :: ts => (c :: t) :: ts

/-- `str.split(sep, maxsplit=1)` for a single-character separator, on
character lists: splits at the first occurrence of `sep` only
(`"a:b:c" -> ["a", "b:c"]`, `"abc" -> ["abc"]`). -/
def splitOnceC (sep : Char) : List Char → List (List Char)
  | [] => [[]]
  | c :: cs =>
    if c = sep then [[], cs]
    else
      match splitOnceC sep cs with
      | [] => [[c]]
      | t :: ts => (c :: t) :: ts

/-- `str.split()` (no argument) on character lists: the maximal runs of
non-whitespace characters; leading/trailing/repeated whitespace produces no
empty tokens. -/
def wsTokensC : List Char → List (List Char)
  | [] => []
  | [c] => if pyIsSpace c then [] else [[c]]
  | c :: d :: ds =>
    if pyIsSpace c then wsTokensC (d :: ds)
    else if pyIsSpace d then [c] :: wsTokensC (d :: ds)
    else
      match wsTokensC (d :: ds) with
      | t :: ts2 => (c :: t) :: ts2
      | [] => [[c]]

/-- Remove a trailing run of whitespace from a character list. -/
def dropTrailWs (l : List Char) : List Char :=
  (l.reverse.dropWhile pyIsSpace).reverse

/-- `str.strip()` on character lists: remove leading and trailing
whitespace. -/
def stripC (l : List Char) : List Char :=
  dropTrailWs (l.dropWhile pyIsSpace)

/-- `str.strip()`. -/
def pyStrip (s : String) : String := String.mk (stripC s.toList)

/-- `str.split()` with no arguments. -/
def pySplitWs (s : String) : List String :=
  (wsTokensC s.toList).map String.mk

/-- `str.split(sep)` for a one-character separator. -/
def pySplit (sep : Char) (s : String) : List String :=
  (splitAllC sep s.toList).map String.mk

/-- `str.split(sep, maxsplit=1)` for a one-character separator. -/
def pySplit1 (sep : Char) (s : String) : List String :=
  (splitOnceC sep s.toList).map String.mk

/-- `str.startswith(pre)`. -/
def pyStartsWith (s pre : String) : Bool :=
  pre.toList.isPrefixOf s.toList

/-- Digit run of a Python integer literal body: `digit (("_")? digit)*`
(PEP 515 underscores are allowed as single separators between digits). -/
def pyIntDigits : List Char → Bool
  | [] => false
  | c :: cs => c.isDigit && pyIntTail cs
where
  /-- Continuation after at least one digit has been read. -/
  pyIntTail : List Char → Bool
    | [] => true
    | '_' :: rest => pyIntDigits rest
    | c :: rest => c.isDigit && pyIntTail rest

/-- Numeric value of a digit/underscore run (underscores skipped). -/
def digitsVal (l : List Char) : Nat :=
  (l.filter Char.isDigit).foldl (fun n c => 10 * n + (c.toNat - '0'.toNat)) 0

/-- Python's `int(s)` on a decimal string: surrounding whitespace is
tolerated, one optional sign, then a digit run. Returns `none` where
CPython raises `ValueError`. -/
def pyInt (s : String) : Option Int :=
  let t := stripC s.toList
  match t with
  | '-' :: core => if pyIntDigits core then some (-(digitsVal core : Int)) else none
  | '+' :: core => if pyIntDigits core then some (digitsVal core : Int) else none
  | core => if pyIntDigits core then some (digitsVal core : Int) else none

/-- A value stored in a sample record: the `organism` entry is a Python
`str`, every other entry an `int`. -/
inductive PValue where
  | str (s : String)
  | int (z : Int)
  deriving DecidableEq, Repr

/-- One parsed sample record (`self.prokka[s_name]`): a Python dict from
field name to value, as an insertion-ordered association list. -/
abbrev SampleRecord := List (String × PValue)

/-- The aggregate table `self.prokka`: a Python dict from sample name to
sample record. -/
abbrev Table := List (String × SampleRecord)

/-- Python dict assignment `d[k] = v`: update in place if the key is
present, append otherwise. -/
def pdictSet {α : Type} : List (String × α) → String → α → List (String × α)
  | [], k, v => [(k, v)]
  | (k', v') :: d, k, v =>
    if k' = k then (k, v) :: d else (k', v') :: pdictSet d k v

/-- Python dict lookup `d.get(k)`. -/
def pdictGet {α : Type} : List (String × α) → String → Option α
  | [], _ => none
  | (k', v') :: d, k => if k' = k then some v' else pdictGet d k

/-- How one call to `parse_prokka` ends: the first-three-lines gate failed
(the early `return`), an uncaught `ValueError` propagated, or the method
ran to completion. -/
inductive Outcome where
  | notRecognized
  | crashed
  | ok
  deriving DecidableEq, Repr

/-- The recognition gate (lines 104-109 of the source): the first three
lines must start with `organism:`, `contigs:`, `bases:`, in order,
case-sensitively. A missing line reads as `""` (what `readline` returns at
end of file). -/
def prokka_gate (lines : List String) : Bool :=
  pyStartsWith (lines.getD 0 "") "organism:" &&
  pyStartsWith (lines.getD 1 "") "contigs:" &&
  pyStartsWith (lines.getD 2 "") "bases:"

/-- Line 114 of the source:
`organism = " ".join(first_line.strip().split(":", maxsplit=1)[1].split()[:2])`.
(The `[1]` index always exists once the gate passed, since the line then
contains a `:`; `getD 1 ""` models it.) -/
def organism_of (first_line : String) : String :=
  String.intercalate " " ((pySplitWs ((pySplit1 ':' (pyStrip first_line)).getD 1 "")).take 2)

/-- Line 115 of the source: `s_name = " ".join(first_line.split()[3:])`. -/
def s_name_of (first_line : String) : String :=
  String.intercalate " " ((pySplitWs first_line).drop 3)

/-- `self.prokka[s_name][k] = v`: look the record up and assign the field
(inside `parse_prokka` the sample key is always present). -/
def tableSetField (t : Table) (s k : String) (v : PValue) : Table :=
  pdictSet t s (pdictSet ((pdictGet t s).getD []) k v)

/-- The trailing-line loop (lines 124-129 of the source):
```
for line in f['f']:
    description, value = line.split(":")
    try:
        self.prokka[s_name][description] = int(value)
    except ValueError:
        log.debug("Unable to parse line: '%s'", line)
```
The tuple unpacking sits outside the `try`, so a line whose `split(":")`
does not yield exactly two pieces raises an uncaught `ValueError`. -/
def parse_trailing (t : Table) (s : String) : List String → Table × Outcome
  | [] => (t, .ok)
  | line :: rest =>
    match pySplit ':' line with
    | [d, v] =>
      match pyInt v with
      | some n => parse_trailing (tableSetField t s d (.int n)) s rest
      | none => parse_trailing t s rest
    | _ => (t, .crashed)

/-- `MultiqcModule.parse_prokka` (lines 91-129 of the source), acting on
the table `self.prokka`. Returns the new table together with how the call
ended. On `crashed` the table is the state at the moment the `ValueError`
propagates. -/
def parse_prokka (t : Table) (lines : List String) : Table × Outcome :=
  let first_line := lines.getD 0 ""
  let contigs_line := lines.getD 1 ""
  let bases_line := lines.getD 2 ""
  if prokka_gate lines then
    let organism := organism_of first_line
    let s_name := s_name_of first_line
    let t1 := pdictSet t s_name []
    let t2 := tableSetField t1 s_name "organism" (.str organism)
    match pyInt ((pySplit ':' contigs_line).getD 1 "") with
    | none => (t2, .crashed)
    | some c =>
      let t3 := tableSetField t2 s_name "contigs" (.int c)
      match pyInt ((pySplit ':' bases_line).getD 1 "") with
      | none => (t3, .crashed)
      | some b =>
        let t4 := tableSetField t3 s_name "bases" (.int b)
        parse_trailing t4 s_name (lines.drop 3)
  else (t, .notRecognized)

/-- How a whole `MultiqcModule.__init__` run ends: an uncaught
`ValueError` from some file, the `raise UserWarning` for an empty table
("no usable input"), or normal completion with the final table. -/
inductive RunResult where
  | crashed
  | noUsableInput
  | completed (t : Table)
  deriving DecidableEq, Repr

/-- The parse loop of `__init__` (lines 28-30): feed every found file to
`parse_prokka`; an uncaught exception aborts the loop. The Boolean records
whether a `ValueError` propagated. -/
def run_files : Table → List (List String) → Table × Bool
  | t, [] => (t, false)
  | t, f :: fs =>
    match parse_prokka t f with
    | (t2, Outcome.crashed) => (t2, true)
    | (t2, _) => run_files t2 fs

/-- Lines 27-34 of the source: start from an empty `self.prokka`, parse
every file, then `raise UserWarning` ("no usable input") when
`len(self.prokka) == 0`. -/
def run_prokka (files : List (List String)) : RunResult :=
  match run_files [] files with
  | (_, true) => .crashed
  | (t, false) => if t.length = 0 then .noUsableInput else .completed t

/-- The general statistics table headers (lines 39-86 of the source), as
the ordered `(key, title)` pairs inserted into the `headers` OrderedDict.
The `contigs` block is commented out in the source. -/
def general_stats_headers : List (String × String) :=
  [("organism", "Organism"),
   ("bases", "Bases"),
   ("CDS", "CDS"),
   ("tRNA", "tRNA"),
   ("rRNA", "rRNA"),
   ("tmRNA", "tmRNA"),
   ("sig_peptide", "sig_peptide")]

/-- The payload `prokka_barplot` hands to `plots.bargraph.plot`: the data
table, the ordered category keys with display names, and the plot
config. -/
structure BarplotPayload where
  data : Table
  keys : List (String × String)
  pconfig : List (String × String)
  deriving DecidableEq, Repr

/-- `MultiqcModule.prokka_barplot` (lines 132-156 of the source). The
`contigs` and `bases` key blocks are commented out in the source. -/
def prokka_barplot (t : Table) : BarplotPayload :=
  { data := t,
    keys := [("CDS", "CDS"),
             ("rRNA", "rRNA"),
             ("tRNA", "tRNA"),
             ("tmRNA", "tmRNA"),
             ("misc_RNA", "misc RNA"),
             ("sig_peptide", "Signaling peptides")],
    pconfig := [("id", "prokka_plot"),
                ("title", "Prokka"),
                ("ylab", "# Counts"),
                ("cpswitch_counts_label", "Features")] }

/-- Spec-side restatement (for claim C1) of the organism rule, in the
spec's own words: "Split the first line on its first `:`; take the text
after the colon, split on whitespace, keep only the first two
whitespace-separated tokens, join with a single space". -/
def spec_organism (first_line : String) : String :=
  String.intercalate " " ((pySplitWs ((pySplit1 ':' first_line).getD 1 "")).take 2)

/-- Spec-side restatement (for claim C1) of the sample-identifier rule, in
the spec's own words: "split the whole line on whitespace and take all
tokens from the fourth onward (zero-indexed token 3), rejoined with single
spaces". -/
def spec_sample_id (first_line : String) : String :=
  String.intercalate " " ((pySplitWs first_line).drop 3)

/-- The spec's literal extraction scenario: a six-line Prokka summary
report. -/
def demoLines : List String :=
  ["organism: Escherichia coli strain K12_sample1",
   "contigs: 5",
   "bases: 4641652",
   "CDS:4289",
   "rRNA:22",
   "tRNA:86"]

/-- A second report for the same sample identifier, with different values
(for the duplicate-identifier scenario). -/
def demoLines2 : List String :=
  ["organism: Escherichia coli strain K12_sample1",
   "contigs: 7",
   "bases: 100",
   "tRNA:3"]

/-- The table produced by a run over the literal scenario alone. -/
def demoTable : Table :=
  [("strain K12_sample1",
    [("organism", PValue.str "Escherichia coli"), ("contigs", PValue.int 5),
     ("bases", PValue.int 4641652), ("CDS", PValue.int 4289),
     ("rRNA", PValue.int 22), ("tRNA", PValue.int 86)])]

/-! ## The per-file record as a pure function of the file's lines -/

/-- Record-level mirror of the trailing-line loop: how the sample's own
record evolves over the lines after the first three. -/
def trailFold (r : SampleRecord) : List String → SampleRecord × Outcome
  | [] => (r, .ok)
  | line :: rest =>
    match pySplit ':' line with
    | [d, v] =>
      match pyInt v with
      | some n => trailFold (pdictSet r d (.int n)) rest
      | none => trailFold r rest
    | _ => (r, .crashed)

/-- The record `parse_prokka` builds for a recognized file, together with
how the call ends, as a pure function of the file's lines. -/
def parsedRecord (lines : List String) : SampleRecord × Outcome :=
  let r1 := pdictSet [] "organism" (.str (organism_of (lines.getD 0 "")))
  match pyInt ((pySplit ':' (lines.getD 1 "")).getD 1 "") with
  | none => (r1, .crashed)
  | some c =>
    let r2 := pdictSet r1 "contigs" (.int c)
    match pyInt ((pySplit ':' (lines.getD 2 "")).getD 1 "") with
    | none => (r2, .crashed)
    | some b => trailFold (pdictSet r2 "bases" (.int b)) (lines.drop 3)

/-! ## Association-list (Python dict) lemmas -/

theorem pdictGet_set_same {α : Type} (d : List (String × α)) (k : String) (v : α) :
    pdictGet (pdictSet d k v) k = some v := by
  induction d with
  | nil => simp [pdictSet, pdictGet]
  | cons p d ih =>
    obtain ⟨k', v'⟩ := p
    by_cases h : k' = k
    · simp [pdictSet, pdictGet, h]
    · simp [pdictSet, pdictGet, h, ih]

theorem pdictGet_set_ne {α : Type} (d : List (String × α)) (k k' : String) (v : α)
    (h : k ≠ k') : pdictGet (pdictSet d k v) k' = pdictGet d k' := by
  induction d with
  | nil => simp [pdictSet, pdictGet, h]
  | cons p d ih =>
    obtain ⟨k0, v0⟩ := p
    by_cases h0 : k0 = k
    · subst h0; simp [pdictSet, pdictGet, h]
    · simp [pdictSet, pdictGet, h0, ih]

theorem pdictSet_set_same {α : Type} (d : List (String × α)) (k : String) (v w : α) :
    pdictSet (pdictSet d k v) k w = pdictSet d k w := by
  induction d with
  | nil => simp [pdictSet]
  | cons p d ih =>
    obtain ⟨k0, v0⟩ := p
    by_cases h0 : k0 = k
    · simp [pdictSet, h0]
    · simp [pdictSet, h0, ih]

theorem pdictSet_get_eq {α : Type} {d : List (String × α)} {k : String} {v : α}
    (h : pdictGet d k = some v) : pdictSet d k v = d := by
  induction d with
  | nil => simp [pdictGet] at h
  | cons p d ih =>
    obtain ⟨k0, v0⟩ := p
    by_cases h0 : k0 = k
    · subst h0
      simp [pdictGet] at h
      simp [pdictSet, h]
    · simp [pdictGet, h0] at h
      simp [pdictSet, h0, ih h]

theorem pdictSet_ne_nil {α : Type} (d : List (String × α)) (k : String) (v : α) :
    pdictSet d k v ≠ [] := by
  cases d with
  | nil => simp [pdictSet]
  | cons p d =>
    obtain ⟨k0, v0⟩ := p
    by_cases h0 : k0 = k <;> simp [pdictSet, h0]

theorem pdictGet_set_cases {α : Type} (d : List (String × α)) (k k' : String) (v : α) :
    pdictGet (pdictSet d k v) k' = if k = k' then some v else pdictGet d k' := by
  by_cases h : k = k'
  · subst h; simp [pdictGet_set_same]
  · simp [h, pdictGet_set_ne d k k' v h]

theorem tableSetField_of_get {t : Table} {s : String} {r : SampleRecord}
    (h : pdictGet t s = some r) (k : String) (v : PValue) :
    tableSetField t s k v = pdictSet t s (pdictSet r k v) := by
  unfold tableSetField
  rw [h]
  rfl

theorem parse_trailing_eq :
    ∀ (ls : List String) (t : Table) (s : String) (r : SampleRecord),
    pdictGet t s = some r →
    parse_trailing t s ls = (pdictSet t s (trailFold r ls).1, (trailFold r ls).2) := by
  intro ls
  induction ls with
  | nil =>
    intro t s r h
    simp [parse_trailing, trailFold, pdictSet_get_eq h]
  | cons line rest ih =>
    intro t s r h
    cases hsp : pySplit ':' line with
    | nil => simp [parse_trailing, trailFold, hsp, pdictSet_get_eq h]
    | cons d tl =>
      cases tl with
      | nil => simp [parse_trailing, trailFold, hsp, pdictSet_get_eq h]
      | cons v tl2 =>
        cases tl2 with
        | nil =>
          cases hint : pyInt v with
          | some n =>
            have hset := tableSetField_of_get h d (PValue.int n)
            have hget : pdictGet (tableSetField t s d (PValue.int n)) s
                = some (pdictSet r d (PValue.int n)) := by
              rw [hset]; exact pdictGet_set_same ..
            simp only [parse_trailing, trailFold, hsp, hint]
            rw [ih _ _ _ hget, hset, pdictSet_set_same]
          | none =>
            simp only [parse_trailing, trailFold, hsp, hint]
            exact ih t s r h
        | cons x xs => simp [parse_trailing, trailFold, hsp, pdictSet_get_eq h]

/-- Structure of one `parse_prokka` call on a recognized file: the whole
effect on the table is a single Python-dict assignment of the pure
`parsedRecord` under the derived sample name, and the outcome is the pure
outcome. -/
theorem parse_prokka_eq (t : Table) (lines : List String)
    (hg : prokka_gate lines = true) :
    parse_prokka t lines =
      (pdictSet t (s_name_of (lines.getD 0 "")) (parsedRecord lines).1,
       (parsedRecord lines).2) := by
  have h1 : pdictGet (pdictSet t (s_name_of (lines.getD 0 "")) ([] : SampleRecord))
      (s_name_of (lines.getD 0 "")) = some [] := pdictGet_set_same ..
  simp only [parse_prokka, parsedRecord, hg, if_pos]
  rw [tableSetField_of_get h1]
  rw [pdictSet_set_same]
  set s := s_name_of (lines.getD 0 "") with hs
  set r1 := pdictSet ([] : SampleRecord) "organism"
    (PValue.str (organism_of (lines.getD 0 ""))) with hr1
  cases hc : pyInt ((pySplit ':' (lines.getD 1 "")).getD 1 "") with
  | none => simp
  | some c =>
    simp only
    have h2 : pdictGet (pdictSet t s r1) s = some r1 := pdictGet_set_same ..
    rw [tableSetField_of_get h2, pdictSet_set_same]
    set r2 := pdictSet r1 "contigs" (PValue.int c) with hr2
    cases hb : pyInt ((pySplit ':' (lines.getD 2 "")).getD 1 "") with
    | none => simp
    | some b =>
      simp only
      have h3 : pdictGet (pdictSet t s r2) s = some r2 := pdictGet_set_same ..
      rw [tableSetField_of_get h3, pdictSet_set_same]
      set r3 := pdictSet r2 "bases" (PValue.int b) with hr3
      have h4 : pdictGet (pdictSet t s r3) s = some r3 := pdictGet_set_same ..
      rw [parse_trailing_eq _ _ _ _ h4, pdictSet_set_same]

/-- A file that fails the gate leaves the table untouched and is reported
as not recognized. -/
theorem parse_prokka_notRec (t : Table) (lines : List String)
    (hg : prokka_gate lines = false) :
    parse_prokka t lines = (t, Outcome.notRecognized) := by
  simp [parse_prokka, hg]

/-! ## Invariants of the trailing-line loop -/

/-- The trailing-line loop never removes a field from the record. -/
theorem trailFold_isSome (k : String) :
    ∀ (ls : List String) (r : SampleRecord), (pdictGet r k).isSome = true →
    (pdictGet (trailFold r ls).1 k).isSome = true := by
  intro ls
  induction ls with
  | nil => intro r h; exact h
  | cons line rest ih =>
    intro r h
    cases hsp : pySplit ':' line with
    | nil => simpa [trailFold, hsp] using h
    | cons d tl =>
      cases tl with
      | nil => simpa [trailFold, hsp] using h
      | cons v tl2 =>
        cases tl2 with
        | nil =>
          cases hint : pyInt v with
          | some n =>
            simp only [trailFold, hsp, hint]
            apply ih
            rw [pdictGet_set_cases]
            split
            · simp
            · exact h
          | none =>
            simp only [trailFold, hsp, hint]
            exact ih r h
        | cons x xs => simpa [trailFold, hsp] using h

/-- The trailing-line loop only ever stores `int` values. -/
theorem trailFold_int :
    ∀ (ls : List String) (r : SampleRecord),
    (∀ k v, pdictGet r k = some v → k ≠ "organism" → ∃ z, v = PValue.int z) →
    ∀ k v, pdictGet (trailFold r ls).1 k = some v → k ≠ "organism" →
      ∃ z, v = PValue.int z := by
  intro ls
  induction ls with
  | nil => intro r h; exact h
  | cons line rest ih =>
    intro r h
    cases hsp : pySplit ':' line with
    | nil => simpa [trailFold, hsp] using h
    | cons d tl =>
      cases tl with
      | nil => simpa [trailFold, hsp] using h
      | cons v tl2 =>
        cases tl2 with
        | nil =>
          cases hint : pyInt v with
          | some n =>
            simp only [trailFold, hsp, hint]
            apply ih
            intro k w hget hk
            rw [pdictGet_set_cases] at hget
            by_cases hd : d = k
            · simp [hd] at hget
              exact ⟨n, hget.symm⟩
            · rw [if_neg hd] at hget
              exact h k w hget hk
          | none =>
            simp only [trailFold, hsp, hint]
            exact ih r h
        | cons x xs => simpa [trailFold, hsp] using h

/-- Splitting the trailing-line loop at an append, when the first part
runs to completion. -/
theorem trailFold_append_ok :
    ∀ (xs : List String) (r : SampleRecord), (trailFold r xs).2 = Outcome.ok →
    ∀ ys, trailFold r (xs ++ ys) = trailFold (trailFold r xs).1 ys := by
  intro xs
  induction xs with
  | nil => intro r _ ys; rfl
  | cons line rest ih =>
    intro r h ys
    cases hsp : pySplit ':' line with
    | nil => simp [trailFold, hsp] at h
    | cons d tl =>
      cases tl with
      | nil => simp [trailFold, hsp] at h
      | cons v tl2 =>
        cases tl2 with
        | nil =>
          cases hint : pyInt v with
          | some n =>
            simp only [trailFold, hsp, hint] at h ⊢
            exact ih _ h ys
          | none =>
            simp only [trailFold, hsp, hint] at h ⊢
            exact ih _ h ys
        | cons x xs2 => simp [trailFold, hsp] at h

/-! ## Consequences for one `parse_prokka` call -/

/-- Only a recognized file can run to completion. -/
theorem parse_ok_gate {t : Table} {lines : List String}
    (h : (parse_prokka t lines).2 = Outcome.ok) : prokka_gate lines = true := by
  by_cases hg : prokka_gate lines = true
  · exact hg
  · rw [parse_prokka_notRec t lines (by simpa using hg)] at h
    simp at h

/-- A recognized file has at least three lines. -/
theorem prokka_gate_three {lines : List String} (hg : prokka_gate lines = true) :
    3 ≤ lines.length := by
  by_contra hlt
  have hfalse : pyStartsWith "" "bases:" = false := by decide
  have h2 : lines.getD 2 "" = "" := List.getD_eq_default _ _ (by omega)
  simp only [prokka_gate, Bool.and_eq_true] at hg
  rw [h2, hfalse] at hg
  exact Bool.false_ne_true hg.2

/-- Appending lines to a recognized file does not change the gate. -/
theorem prokka_gate_append (lines extra : List String) (h3 : 3 ≤ lines.length) :
    prokka_gate (lines ++ extra) = prokka_gate lines := by
  unfold prokka_gate
  rw [List.getD_append _ _ _ _ (by omega), List.getD_append _ _ _ _ (by omega),
    List.getD_append _ _ _ _ (by omega)]

/-- A file that completes yields a record holding at least the `organism`,
`contigs` and `bases` fields. -/
theorem parsedRecord_complete (lines : List String)
    (h : (parsedRecord lines).2 = Outcome.ok) :
    (pdictGet (parsedRecord lines).1 "organism").isSome = true ∧
    (pdictGet (parsedRecord lines).1 "contigs").isSome = true ∧
    (pdictGet (parsedRecord lines).1 "bases").isSome = true := by
  cases hc : pyInt ((pySplit ':' (lines.getD 1 "")).getD 1 "") with
  | none => simp only [parsedRecord, hc] at h; simp at h
  | some c =>
    cases hb : pyInt ((pySplit ':' (lines.getD 2 "")).getD 1 "") with
    | none => simp only [parsedRecord, hc, hb] at h; simp at h
    | some b =>
      simp only [parsedRecord, hc, hb]
      refine ⟨?_, ?_, ?_⟩ <;> apply trailFold_isSome
      · rw [pdictGet_set_ne _ _ _ _ (by decide), pdictGet_set_ne _ _ _ _ (by decide),
          pdictGet_set_same]
        rfl
      · rw [pdictGet_set_ne _ _ _ _ (by decide), pdictGet_set_same]
        rfl
      · rw [pdictGet_set_same]
        rfl

/-- Every field of a parsed record other than `organism` holds an `int`
(of either sign). -/
theorem parsedRecord_int (lines : List String) :
    ∀ k v, pdictGet (parsedRecord lines).1 k = some v → k ≠ "organism" →
      ∃ z, v = PValue.int z := by
  cases hc : pyInt ((pySplit ':' (lines.getD 1 "")).getD 1 "") with
  | none =>
    intro k v hget hk
    simp only [parsedRecord, hc] at hget
    rw [pdictGet_set_cases] at hget
    by_cases ho : "organism" = k
    · exact absurd ho.symm hk
    · rw [if_neg ho] at hget
      simp [pdictGet] at hget
  | some c =>
    cases hb : pyInt ((pySplit ':' (lines.getD 2 "")).getD 1 "") with
    | none =>
      intro k v hget hk
      simp only [parsedRecord, hc, hb] at hget
      rw [pdictGet_set_cases] at hget
      by_cases h1 : "contigs" = k
      · rw [if_pos h1] at hget
        exact ⟨c, by injection hget.symm⟩
      · rw [if_neg h1, pdictGet_set_cases] at hget
        by_cases ho : "organism" = k
        · exact absurd ho.symm hk
        · rw [if_neg ho] at hget
          simp [pdictGet] at hget
    | some b =>
      simp only [parsedRecord, hc, hb]
      apply trailFold_int
      intro k v hget hk
      rw [pdictGet_set_cases] at hget
      by_cases h1 : "bases" = k
      · rw [if_pos h1] at hget
        exact ⟨b, by injection hget.symm⟩
      · rw [if_neg h1, pdictGet_set_cases] at hget
        by_cases h2 : "contigs" = k
        · rw [if_pos h2] at hget
          exact ⟨c, by injection hget.symm⟩
        · rw [if_neg h2, pdictGet_set_cases] at hget
          by_cases ho : "organism" = k
          · exact absurd ho.symm hk
          · rw [if_neg ho] at hget
            simp [pdictGet] at hget

/-- Appending extra trailing lines to a file that completes continues the
trailing loop from the record already built. -/
theorem parsedRecord_append (lines extra : List String) (h3 : 3 ≤ lines.length)
    (hok : (parsedRecord lines).2 = Outcome.ok) :
    parsedRecord (lines ++ extra) = trailFold (parsedRecord lines).1 extra := by
  have g0 : (lines ++ extra).getD 0 "" = lines.getD 0 "" :=
    List.getD_append _ _ _ _ (by omega)
  have g1 : (lines ++ extra).getD 1 "" = lines.getD 1 "" :=
    List.getD_append _ _ _ _ (by omega)
  have g2 : (lines ++ extra).getD 2 "" = lines.getD 2 "" :=
    List.getD_append _ _ _ _ (by omega)
  have gd : (lines ++ extra).drop 3 = lines.drop 3 ++ extra :=
    List.drop_append_of_le_length h3
  cases hc : pyInt ((pySplit ':' (lines.getD 1 "")).getD 1 "") with
  | none => simp only [parsedRecord, hc] at hok; simp at hok
  | some c =>
    cases hb : pyInt ((pySplit ':' (lines.getD 2 "")).getD 1 "") with
    | none => simp only [parsedRecord, hc, hb] at hok; simp at hok
    | some b =>
      have hok2 : (trailFold (pdictSet (pdictSet (pdictSet []
          "organism" (PValue.str (organism_of (lines.getD 0 ""))))
          "contigs" (PValue.int c)) "bases" (PValue.int b)) (lines.drop 3)).2
          = Outcome.ok := by
        simpa only [parsedRecord, hc, hb] using hok
      simp only [parsedRecord, g0, g1, g2, gd, hc, hb]
      rw [trailFold_append_ok _ _ hok2]

/-! ## Run-level lemmas (`__init__`) -/

/-- `parse_prokka` never reports `notRecognized` through `parsedRecord`:
the trailing loop ends in `ok` or `crashed`. -/
theorem trailFold_not_notRec :
    ∀ (ls : List String) (r : SampleRecord),
    (trailFold r ls).2 ≠ Outcome.notRecognized := by
  intro ls
  induction ls with
  | nil => intro r h; exact Outcome.noConfusion h
  | cons line rest ih =>
    intro r
    cases hsp : pySplit ':' line with
    | nil => simp [trailFold, hsp]
    | cons d tl =>
      cases tl with
      | nil => simp [trailFold, hsp]
      | cons v tl2 =>
        cases tl2 with
        | nil =>
          cases hint : pyInt v with
          | some n => simp only [trailFold, hsp, hint]; exact ih _
          | none => simp only [trailFold, hsp, hint]; exact ih _
        | cons x xs => simp [trailFold, hsp]

/-- A recognized file either completes or crashes. -/
theorem parsedRecord_not_notRec (lines : List String) :
    (parsedRecord lines).2 ≠ Outcome.notRecognized := by
  cases hc : pyInt ((pySplit ':' (lines.getD 1 "")).getD 1 "") with
  | none => simp only [parsedRecord, hc]; exact fun h => Outcome.noConfusion h
  | some c =>
    cases hb : pyInt ((pySplit ':' (lines.getD 2 "")).getD 1 "") with
    | none => simp only [parsedRecord, hc, hb]; exact fun h => Outcome.noConfusion h
    | some b =>
      simp only [parsedRecord, hc, hb]
      exact trailFold_not_notRec _ _

/-- A record read back after a dict assignment is the assigned one or was
already in the dict. -/
theorem pdictGet_set_inv {α : Type} {d : List (String × α)} {k s : String} {v r : α}
    (h : pdictGet (pdictSet d k v) s = some r) : r = v ∨ pdictGet d s = some r := by
  rw [pdictGet_set_cases] at h
  by_cases hk : k = s
  · rw [if_pos hk] at h
    exact Or.inl (by injection h.symm)
  · rw [if_neg hk] at h
    exact Or.inr h

/-- If no file passes the gate, the parse loop leaves the table untouched
and never crashes. -/
theorem run_files_unchanged :
    ∀ (fs : List (List String)) (t : Table),
    (∀ f ∈ fs, prokka_gate f = false) → run_files t fs = (t, false) := by
  intro fs
  induction fs with
  | nil => intro t _; rfl
  | cons f fs ih =>
    intro t h
    have hg := h f (by simp)
    simp only [run_files, parse_prokka_notRec t f hg]
    exact ih t (fun g hgm => h g (by simp [hgm]))

/-- Once the table is nonempty, or some file passes the gate, the loop
ends crashed or with a nonempty table. -/
theorem run_files_progress :
    ∀ (fs : List (List String)) (t : Table),
    (t ≠ [] ∨ ∃ f ∈ fs, prokka_gate f = true) →
    (run_files t fs).2 = true ∨ (run_files t fs).1 ≠ [] := by
  intro fs
  induction fs with
  | nil =>
    intro t h
    rcases h with h | ⟨f, hf, _⟩
    · exact Or.inr h
    · exact absurd hf (List.not_mem_nil f)
  | cons f fs ih =>
    intro t h
    by_cases hg : prokka_gate f = true
    · simp only [run_files, parse_prokka_eq t f hg]
      cases ho : (parsedRecord f).2 with
      | notRecognized => exact absurd ho (parsedRecord_not_notRec f)
      | crashed => simp
      | ok =>
        simp only
        exact ih _ (Or.inl (pdictSet_ne_nil _ _ _))
    · have hg' : prokka_gate f = false := by simpa using hg
      simp only [run_files, parse_prokka_notRec t f hg']
      apply ih
      rcases h with h | ⟨g, hgm, hgt⟩
      · exact Or.inl h
      · rcases List.mem_cons.mp hgm with rfl | hmem
        · rw [hg'] at hgt; exact absurd hgt (by simp)
        · exact Or.inr ⟨g, hmem, hgt⟩

/-- Any per-record property that every completed parse establishes holds
for every record of the table of a crash-free run. -/
theorem run_files_inv (P : SampleRecord → Prop)
    (hrec : ∀ lines, prokka_gate lines = true → (parsedRecord lines).2 = Outcome.ok →
      P (parsedRecord lines).1) :
    ∀ (fs : List (List String)) (t : Table),
    (∀ s r, pdictGet t s = some r → P r) →
    ∀ tbl, run_files t fs = (tbl, false) →
    ∀ s r, pdictGet tbl s = some r → P r := by
  intro fs
  induction fs with
  | nil =>
    intro t ht tbl heq
    have : t = tbl := congrArg Prod.fst heq
    subst this
    exact ht
  | cons f fs ih =>
    intro t ht tbl heq
    by_cases hg : prokka_gate f = true
    · rw [show run_files t (f :: fs)
          = (match parse_prokka t f with
             | (t2, Outcome.crashed) => (t2, true)
             | (t2, _) => run_files t2 fs) from rfl,
        parse_prokka_eq t f hg] at heq
      cases ho : (parsedRecord f).2 with
      | notRecognized => exact absurd ho (parsedRecord_not_notRec f)
      | crashed =>
        rw [ho] at heq
        simp at heq
      | ok =>
        rw [ho] at heq
        simp only at heq
        refine ih _ ?_ tbl heq
        intro s r hget
        rcases pdictGet_set_inv hget with rfl | hold
        · exact hrec f hg ho
        · exact ht s r hold
    · have hg' : prokka_gate f = false := by simpa using hg
      rw [show run_files t (f :: fs)
          = (match parse_prokka t f with
             | (t2, Outcome.crashed) => (t2, true)
             | (t2, _) => run_files t2 fs) from rfl,
        parse_prokka_notRec t f hg'] at heq
      exact ih t ht tbl heq

/-! ## Claim theorems -/

/-- C2: for every input whose first three lines do not, in order and
case-sensitively, start with `organism:`, `contigs:`, `bases:`, the parse
returns "not recognized" and the aggregate table is left unchanged. -/
theorem prokka_c2 (t : Table) (lines : List String)
    (h : prokka_gate lines = false) :
    parse_prokka t lines = (t, Outcome.notRecognized) :=
  parse_prokka_notRec t lines h

theorem prokka_c2_witness :
    prokka_gate ["hello", "world"] = false ∧
    parse_prokka [("x", [("organism", PValue.str "y")])] ["hello", "world"]
      = ([("x", [("organism", PValue.str "y")])], Outcome.notRecognized) :=
  ⟨by decide, prokka_c2 _ _ (by decide)⟩

/-- C3 counterexample: on a recognized input, a trailing line with no `:`
separator makes `parse_prokka` raise an uncaught `ValueError` (the tuple
unpacking `description, value = line.split(":")` sits outside the `try`),
contradicting the claim that the parse never raises for trailing lines. -/
theorem prokka_c3_counterexample :
    prokka_gate ["organism: a b c d", "contigs: 1", "bases: 2", "nocolon"] = true ∧
    (parse_prokka [] ["organism: a b c d", "contigs: 1", "bases: 2", "nocolon"]).2
      = Outcome.crashed := by
  exact ⟨by decide, by decide⟩

/-- C3 amended: a trailing line that splits on `:` into exactly two pieces
whose value part does not parse as an integer is skipped (its field stays
absent) and parsing continues with the next line; but a trailing line
whose `split(":")` does not yield exactly two pieces (no `:` at all, or
more than one) raises an uncaught `ValueError`, aborting the parse. -/
theorem prokka_c3 :
    (∀ (t : Table) (s line : String) (rest : List String) (d v : String),
      pySplit ':' line = [d, v] → pyInt v = none →
      parse_trailing t s (line :: rest) = parse_trailing t s rest) ∧
    (∀ (t : Table) (s line : String) (rest : List String),
      (pySplit ':' line).length ≠ 2 →
      parse_trailing t s (line :: rest) = (t, Outcome.crashed)) := by
  constructor
  · intro t s line rest d v hsp hint
    simp only [parse_trailing, hsp, hint]
  · intro t s line rest hlen
    cases hsp : pySplit ':' line with
    | nil => simp [parse_trailing, hsp]
    | cons a tl =>
      cases tl with
      | nil => simp [parse_trailing, hsp]
      | cons b tl2 =>
        cases tl2 with
        | nil => rw [hsp] at hlen; simp at hlen
        | cons x xs => simp [parse_trailing, hsp]

theorem prokka_c3_witness :
    pySplit ':' "sig_peptide:notanumber" = ["sig_peptide", "notanumber"] ∧
    pyInt "notanumber" = none ∧
    parse_trailing [] "s" ["sig_peptide:notanumber", "tRNA:86"]
      = parse_trailing [] "s" ["tRNA:86"] ∧
    (pySplit ':' "nocolon").length ≠ 2 ∧
    parse_trailing [] "s" ["nocolon", "tRNA:86"] = ([], Outcome.crashed) :=
  ⟨by decide, by decide,
   prokka_c3.1 [] "s" "sig_peptide:notanumber" ["tRNA:86"] "sig_peptide" "notanumber"
     (by decide) (by decide),
   by decide,
   prokka_c3.2 _ _ _ _ (by decide)⟩

/-- C4 counterexample: a recognized input whose `contigs:` value is not an
integer leaves a partial record (only `organism`) visible in the table
while the uncaught `ValueError` propagates, contradicting the claimed
atomicity. -/
theorem prokka_c4_counterexample :
    prokka_gate ["organism: a b c d", "contigs: x", "bases: 2"] = true ∧
    parse_prokka [] ["organism: a b c d", "contigs: x", "bases: 2"]
      = ([("c d", [("organism", PValue.str "a b")])], Outcome.crashed) ∧
    pdictGet [("organism", PValue.str "a b")] "contigs" = none := by
  exact ⟨by decide, by decide, by decide⟩

/-- C4 amended: when `parse_prokka` runs to completion, a record holding
at least the `organism`, `contigs` and `bases` fields is present under the
derived sample identifier, and when the input is not recognized the table
is unchanged; but when the second or third line's value fails integer
parsing, the call raises `ValueError` and a partial record (missing
`contigs` and/or `bases`) remains visible in the table. -/
theorem prokka_c4 :
    (∀ (t : Table) (lines : List String), (parse_prokka t lines).2 = Outcome.ok →
      ∃ r, pdictGet (parse_prokka t lines).1 (s_name_of (lines.getD 0 "")) = some r ∧
        (pdictGet r "organism").isSome = true ∧
        (pdictGet r "contigs").isSome = true ∧
        (pdictGet r "bases").isSome = true) ∧
    (∀ (t : Table) (lines : List String),
      (parse_prokka t lines).2 = Outcome.notRecognized →
      (parse_prokka t lines).1 = t) := by
  constructor
  · intro t lines h
    have hg := parse_ok_gate h
    rw [parse_prokka_eq t lines hg] at h ⊢
    obtain ⟨h1, h2, h3⟩ := parsedRecord_complete lines h
    exact ⟨(parsedRecord lines).1, pdictGet_set_same _ _ _, h1, h2, h3⟩
  · intro t lines h
    by_cases hg : prokka_gate lines = true
    · rw [parse_prokka_eq t lines hg] at h
      exact absurd h (parsedRecord_not_notRec lines)
    · rw [parse_prokka_notRec t lines (by simpa using hg)]

theorem prokka_c4_witness :
    (parse_prokka [] demoLines).2 = Outcome.ok ∧
    (∃ r, pdictGet (parse_prokka [] demoLines).1 (s_name_of (demoLines.getD 0 ""))
        = some r ∧
      (pdictGet r "organism").isSome = true ∧
      (pdictGet r "contigs").isSome = true ∧
      (pdictGet r "bases").isSome = true) :=
  ⟨by decide, prokka_c4.1 [] demoLines (by decide)⟩

/-- C5: the "no usable input" signal (`raise UserWarning`) is raised
exactly when zero reports in the input collection pass the recognition
gate, and never otherwise. -/
theorem prokka_c5 (files : List (List String)) :
    run_prokka files = RunResult.noUsableInput ↔
    files.countP (fun f => prokka_gate f) = 0 := by
  rw [List.countP_eq_zero]
  constructor
  · intro h f hf hgt
    have hprog := run_files_progress files [] (Or.inr ⟨f, hf, hgt⟩)
    unfold run_prokka at h
    rcases hrf : run_files [] files with ⟨t0, c0⟩
    rw [hrf] at h hprog
    cases c0 with
    | true => exact RunResult.noConfusion h
    | false =>
      rcases hprog with hc | hne
      · exact Bool.false_ne_true hc
      · have h2 : (if t0.length = 0 then RunResult.noUsableInput
            else RunResult.completed t0) = RunResult.noUsableInput := h
        rw [if_neg (by simpa [List.length_eq_zero] using hne)] at h2
        exact RunResult.noConfusion h2
  · intro hall
    have hz : run_files [] files = ([], false) :=
      run_files_unchanged files [] (fun f hf => by
        have h := hall f hf
        revert h
        cases prokka_gate f <;> simp)
    unfold run_prokka
    rw [hz]
    rfl

/-- C6: for two recognized inputs deriving the same sample identifier,
parsing both in sequence leaves under that identifier exactly the record
the second input yields on its own: the insertion overwrites entirely,
with no merging of fields. -/
theorem prokka_c6 (t : Table) (lines1 lines2 : List String)
    (h1 : prokka_gate lines1 = true) (h2 : prokka_gate lines2 = true)
    (hsid : s_name_of (lines2.getD 0 "") = s_name_of (lines1.getD 0 "")) :
    pdictGet (parse_prokka (parse_prokka t lines1).1 lines2).1
        (s_name_of (lines1.getD 0 ""))
      = pdictGet (parse_prokka [] lines2).1 (s_name_of (lines1.getD 0 "")) := by
  rw [parse_prokka_eq t lines1 h1]
  rw [parse_prokka_eq _ lines2 h2, parse_prokka_eq [] lines2 h2]
  simp only [hsid, pdictGet_set_same]

theorem prokka_c6_witness :
    prokka_gate demoLines = true ∧
    prokka_gate demoLines2 = true ∧
    s_name_of (demoLines2.getD 0 "") = s_name_of (demoLines.getD 0 "") ∧
    pdictGet (parse_prokka (parse_prokka [] demoLines).1 demoLines2).1
        (s_name_of (demoLines.getD 0 ""))
      = pdictGet (parse_prokka [] demoLines2).1 (s_name_of (demoLines.getD 0 "")) ∧
    pdictGet (parse_prokka (parse_prokka [] demoLines).1 demoLines2).1
        (s_name_of (demoLines.getD 0 ""))
      = some [("organism", PValue.str "Escherichia coli"),
              ("contigs", PValue.int 7),
              ("bases", PValue.int 100),
              ("tRNA", PValue.int 3)] :=
  ⟨by decide, by decide, by decide,
   prokka_c6 [] demoLines demoLines2 (by decide) (by decide) (by decide),
   by decide⟩

/-- C7 counterexample: `int()` accepts negative numbers, so a trailing
line `CDS:-5` is stored with value `-5 < 0`, contradicting the claim that
every stored non-`organism` value is non-negative. -/
theorem prokka_c7_counterexample :
    run_prokka [["organism: a b c d", "contigs: 1", "bases: 2", "CDS:-5"]]
      = RunResult.completed
          [("c d", [("organism", PValue.str "a b"), ("contigs", PValue.int 1),
                    ("bases", PValue.int 2), ("CDS", PValue.int (-5))])] ∧
    pdictGet [("organism", PValue.str "a b"), ("contigs", PValue.int 1),
              ("bases", PValue.int 2), ("CDS", PValue.int (-5))] "CDS"
      = some (PValue.int (-5)) ∧
    (-5 : Int) < 0 := by
  exact ⟨by decide, by decide, by decide⟩

/-- C7 amended: in every record of the table of a crash-free run, every
field other than `organism` holds an integer value; its sign is not
constrained (negative values such as `CDS:-5` are accepted and stored
as-is, so non-negativity does not hold). -/
theorem prokka_c7 (files : List (List String)) (tbl : Table)
    (h : run_prokka files = RunResult.completed tbl) :
    ∀ s r, pdictGet tbl s = some r → ∀ k v, pdictGet r k = some v →
      k ≠ "organism" → ∃ z, v = PValue.int z := by
  unfold run_prokka at h
  rcases hrf : run_files [] files with ⟨t0, c0⟩
  rw [hrf] at h
  cases c0 with
  | true => exact RunResult.noConfusion h
  | false =>
    have h2 : (if t0.length = 0 then RunResult.noUsableInput
        else RunResult.completed t0) = RunResult.completed tbl := h
    by_cases hlen : t0.length = 0
    · rw [if_pos hlen] at h2
      exact RunResult.noConfusion h2
    · rw [if_neg hlen] at h2
      have : t0 = tbl := by injection h2
      subst this
      exact run_files_inv
        (fun r => ∀ k v, pdictGet r k = some v → k ≠ "organism" → ∃ z, v = PValue.int z)
        (fun lines _ _ => parsedRecord_int lines)
        files [] (fun s r hget => by simp [pdictGet] at hget) t0 hrf

theorem prokka_c7_witness :
    run_prokka [demoLines] = RunResult.completed demoTable ∧
    (∃ z, PValue.int 4289 = PValue.int z) :=
  ⟨by decide,
   prokka_c7 [demoLines] demoTable (by decide) "strain K12_sample1"
     [("organism", PValue.str "Escherichia coli"), ("contigs", PValue.int 5),
      ("bases", PValue.int 4641652), ("CDS", PValue.int 4289),
      ("rRNA", PValue.int 22), ("tRNA", PValue.int 86)]
     (by decide) "CDS" (PValue.int 4289) (by decide) (by decide)⟩

/-- C8: the bar-chart category series is always produced in exactly the
fixed order `CDS`, `rRNA`, `tRNA`, `tmRNA`, `misc_RNA`, `sig_peptide`,
whatever the data table holds, and `contigs` and `bases` are not among the
chart categories. -/
theorem prokka_c8 (t : Table) :
    (prokka_barplot t).keys.map Prod.fst
      = ["CDS", "rRNA", "tRNA", "tmRNA", "misc_RNA", "sig_peptide"] ∧
    "contigs" ∉ ((prokka_barplot t).keys.map Prod.fst) ∧
    "bases" ∉ ((prokka_barplot t).keys.map Prod.fst) := by
  have hk : (prokka_barplot t).keys.map Prod.fst
      = ["CDS", "rRNA", "tRNA", "tmRNA", "misc_RNA", "sig_peptide"] := rfl
  refine ⟨hk, ?_, ?_⟩
  · rw [hk]; decide
  · rw [hk]; decide

/-- C9: the general-statistics table columns are declared in exactly the
fixed order `organism`, `bases`, `CDS`, `tRNA`, `rRNA`, `tmRNA`,
`sig_peptide`; `contigs` is omitted from the table view even though every
completed parse stores a `contigs` field in its record. -/
theorem prokka_c9 :
    general_stats_headers.map Prod.fst
      = ["organism", "bases", "CDS", "tRNA", "rRNA", "tmRNA", "sig_peptide"] ∧
    "contigs" ∉ (general_stats_headers.map Prod.fst) ∧
    (∀ (t : Table) (lines : List String), (parse_prokka t lines).2 = Outcome.ok →
      ∃ r, pdictGet (parse_prokka t lines).1 (s_name_of (lines.getD 0 "")) = some r ∧
        (pdictGet r "contigs").isSome = true) := by
  refine ⟨rfl, by decide, ?_⟩
  intro t lines h
  have hg := parse_ok_gate h
  rw [parse_prokka_eq t lines hg] at h ⊢
  obtain ⟨-, h2, -⟩ := parsedRecord_complete lines h
  exact ⟨(parsedRecord lines).1, pdictGet_set_same _ _ _, h2⟩

theorem prokka_c9_witness :
    general_stats_headers.map Prod.fst
      = ["organism", "bases", "CDS", "tRNA", "rRNA", "tmRNA", "sig_peptide"] ∧
    (∃ r, pdictGet (parse_prokka [] demoLines2).1 (s_name_of (demoLines2.getD 0 ""))
        = some r ∧ (pdictGet r "contigs").isSome = true) :=
  ⟨prokka_c9.1, prokka_c9.2.2 [] demoLines2 (by decide)⟩

/-- C10: a trailing line whose text before the `:` is one of the
header-derived field names, with an integer value, silently overwrites
that field in the stored record with the trailing line's integer; the
field name is taken verbatim from the text before the `:`, with no
whitespace trimming. -/
theorem prokka_c10 (t : Table) (lines : List String) (line d v : String) (n : Int)
    (hg : prokka_gate lines = true)
    (hok : (parse_prokka t lines).2 = Outcome.ok)
    (hsp : pySplit ':' line = [d, v])
    (hn : pyInt v = some n) :
    (parse_prokka t (lines ++ [line])).2 = Outcome.ok ∧
    ∃ r, pdictGet (parse_prokka t (lines ++ [line])).1 (s_name_of (lines.getD 0 ""))
        = some r ∧ pdictGet r d = some (PValue.int n) := by
  have h3 := prokka_gate_three hg
  have hg2 : prokka_gate (lines ++ [line]) = true := by
    rw [prokka_gate_append lines [line] h3]
    exact hg
  have hok' : (parsedRecord lines).2 = Outcome.ok := by
    rw [parse_prokka_eq t lines hg] at hok
    exact hok
  have happ := parsedRecord_append lines [line] h3 hok'
  have htr : trailFold (parsedRecord lines).1 [line]
      = (pdictSet (parsedRecord lines).1 d (PValue.int n), Outcome.ok) := by
    simp only [trailFold, hsp, hn]
  have g0 : (lines ++ [line]).getD 0 "" = lines.getD 0 "" :=
    List.getD_append _ _ _ _ (by omega)
  rw [parse_prokka_eq t (lines ++ [line]) hg2, happ, htr, g0]
  exact ⟨rfl, _, pdictGet_set_same _ _ _, pdictGet_set_same _ _ _⟩

theorem prokka_c10_witness :
    ((parse_prokka [] (demoLines ++ ["organism:7"])).2 = Outcome.ok ∧
      ∃ r, pdictGet (parse_prokka [] (demoLines ++ ["organism:7"])).1
          (s_name_of (demoLines.getD 0 "")) = some r ∧
        pdictGet r "organism" = some (PValue.int 7)) ∧
    pdictGet ((pdictGet (parse_prokka [] (demoLines ++ [" CDS:5"])).1
        (s_name_of (demoLines.getD 0 ""))).getD []) " CDS" = some (PValue.int 5) ∧
    pdictGet ((pdictGet (parse_prokka [] (demoLines ++ [" CDS:5"])).1
        (s_name_of (demoLines.getD 0 ""))).getD []) "CDS" = some (PValue.int 4289) :=
  ⟨prokka_c10 [] demoLines "organism:7" "organism" "7" 7
     (by decide) (by decide) (by decide) (by decide),
   by decide, by decide⟩

/-! ## C1: the extraction expressions match the spec's description -/

theorem toList_mk (cs : List Char) : (String.mk cs).toList = cs := rfl

theorem isPrefixOf_decomp :
    ∀ (p l : List Char), p.isPrefixOf l = true → ∃ r, l = p ++ r := by
  intro p
  induction p with
  | nil => intro l _; exact ⟨l, rfl⟩
  | cons a as ih =>
    intro l h
    cases l with
    | nil => simp [List.isPrefixOf] at h
    | cons b bs =>
      simp only [List.isPrefixOf, Bool.and_eq_true, beq_iff_eq] at h
      obtain ⟨rfl, h2⟩ := h
      obtain ⟨r, rfl⟩ := ih bs h2
      exact ⟨r, rfl⟩

theorem wsTokensC_allws :
    ∀ (l : List Char), (∀ c ∈ l, pyIsSpace c = true) → wsTokensC l = [] := by
  intro l
  induction l with
  | nil => intro _; rfl
  | cons c cs ih =>
    intro h
    have hc : pyIsSpace c = true := h c (by simp)
    cases cs with
    | nil => simp [wsTokensC, hc]
    | cons d ds =>
      have : wsTokensC (d :: ds) = [] := ih (fun e he => h e (by simp [he]))
      simp [wsTokensC, hc, this]

theorem wsTokensC_append_ws :
    ∀ (xs ys : List Char), (∀ c ∈ ys, pyIsSpace c = true) →
    wsTokensC (xs ++ ys) = wsTokensC xs := by
  intro xs
  induction xs with
  | nil => intro ys h; simpa using wsTokensC_allws ys h
  | cons c cs ih =>
    intro ys h
    cases cs with
    | nil =>
      show wsTokensC (c :: ys) = wsTokensC [c]
      cases ys with
      | nil => rfl
      | cons d ds =>
        have hd : pyIsSpace d = true := h d (by simp)
        have hys : wsTokensC (d :: ds) = [] := wsTokensC_allws _ h
        cases hc : pyIsSpace c with
        | true => simp [wsTokensC, hc, hd, hys]
        | false => simp [wsTokensC, hc, hd, hys]
    | cons d ds =>
      have ih2 : wsTokensC (d :: (ds ++ ys)) = wsTokensC (d :: ds) := by
        simpa using ih ys h
      show wsTokensC (c :: d :: (ds ++ ys)) = wsTokensC (c :: d :: ds)
      simp only [wsTokensC, ih2]

theorem wsTokensC_dropTrail (l : List Char) :
    wsTokensC (dropTrailWs l) = wsTokensC l := by
  have hdecomp : l = dropTrailWs l ++ (l.reverse.takeWhile pyIsSpace).reverse := by
    unfold dropTrailWs
    conv_lhs => rw [← List.reverse_reverse l,
      ← List.takeWhile_append_dropWhile pyIsSpace l.reverse]
    rw [List.reverse_append]
  have hws : ∀ c ∈ (l.reverse.takeWhile pyIsSpace).reverse, pyIsSpace c = true := by
    intro c hcm
    exact List.mem_takeWhile_imp (List.mem_reverse.mp hcm)
  conv_rhs => rw [hdecomp]
  exact (wsTokensC_append_ws _ _ hws).symm

theorem splitOnceC_organism (X : List Char) :
    splitOnceC ':' ("organism:".toList ++ X) = ["organism".toList, X] := rfl

theorem dropWhile_organism (X : List Char) :
    ("organism:".toList ++ X).dropWhile pyIsSpace = "organism:".toList ++ X := by
  rw [show "organism:".toList ++ X = 'o' :: ("rganism:".toList ++ X) from rfl]
  rw [List.dropWhile_cons, if_neg (by decide)]

theorem stripC_organism (rest : List Char) :
    stripC ("organism:".toList ++ rest) = "organism:".toList ++ dropTrailWs rest := by
  unfold stripC dropTrailWs
  rw [dropWhile_organism, List.reverse_append, List.dropWhile_append]
  by_cases hE : (rest.reverse.dropWhile pyIsSpace).isEmpty = true
  · rw [if_pos hE]
    have h0 : rest.reverse.dropWhile pyIsSpace = [] := List.isEmpty_iff.mp hE
    have h1 : ("organism:".toList.reverse).dropWhile pyIsSpace
        = "organism:".toList.reverse := by decide
    rw [h0, h1, List.reverse_reverse]
    simp
  · rw [if_neg hE, List.reverse_append, List.reverse_reverse]

theorem getD_map_mk :
    ∀ (l : List (List Char)) (i : Nat),
    (l.map String.mk).getD i "" = String.mk (l.getD i []) := by
  intro l
  induction l with
  | nil => intro i; cases i <;> rfl
  | cons x xs ih =>
    intro i
    cases i with
    | zero => rfl
    | succ n => exact ih n

/-- The `.strip()` in the organism extraction is invisible to the final
token list: after the first `:`, stripping can only remove trailing
whitespace, which whitespace-splitting discards anyway. -/
theorem organism_tokens_eq (line : String) (h : pyStartsWith line "organism:" = true) :
    pySplitWs ((pySplit1 ':' (pyStrip line)).getD 1 "")
      = pySplitWs ((pySplit1 ':' line).getD 1 "") := by
  obtain ⟨rest, hrest⟩ := isPrefixOf_decomp _ _ h
  have hdata : line.data = "organism:".toList ++ rest := hrest
  unfold pySplitWs pySplit1 pyStrip
  rw [getD_map_mk, getD_map_mk]
  simp only [toList_mk]
  rw [hrest, stripC_organism, splitOnceC_organism, splitOnceC_organism]
  show (wsTokensC (dropTrailWs rest)).map String.mk = (wsTokensC rest).map String.mk
  rw [wsTokensC_dropTrail]

/-- C1: for a first line passing the `organism:` part of the recognition
gate, the parser's organism expression (`organism_of`, line 114 of the
source, including its `.strip()`) equals the spec's description
(`spec_organism`: first two whitespace tokens after the first `:`, joined
by one space), and the parser's sample identifier (`s_name_of`, line 115)
equals the spec's description (`spec_sample_id`: whitespace tokens from
zero-indexed token 3 on, rejoined); with fewer than four tokens the
identifier is the empty string; and the record a recognized file inserts
into the table sits under exactly that spec-described identifier. -/
theorem prokka_c1 (line : String) (h : pyStartsWith line "organism:" = true) :
    organism_of line = spec_organism line ∧
    s_name_of line = spec_sample_id line ∧
    ((pySplitWs line).length ≤ 3 → s_name_of line = "") ∧
    (∀ (t : Table) (lines : List String), prokka_gate lines = true →
      (pdictGet (parse_prokka t lines).1 (spec_sample_id (lines.getD 0 ""))).isSome
        = true) := by
  refine ⟨?_, rfl, ?_, ?_⟩
  · unfold organism_of spec_organism
    rw [organism_tokens_eq line h]
  · intro hlen
    unfold s_name_of
    rw [List.drop_eq_nil_of_le hlen]
    rfl
  · intro t lines hg
    rw [parse_prokka_eq t lines hg]
    have : spec_sample_id (lines.getD 0 "") = s_name_of (lines.getD 0 "") := rfl
    rw [this, pdictGet_set_same]
    rfl

theorem prokka_c1_witness :
    pyStartsWith "organism: Escherichia coli strain K12_sample1" "organism:" = true ∧
    organism_of "organism: Escherichia coli strain K12_sample1"
      = spec_organism "organism: Escherichia coli strain K12_sample1" ∧
    s_name_of "organism: Escherichia coli strain K12_sample1"
      = spec_sample_id "organism: Escherichia coli strain K12_sample1" ∧
    organism_of "organism: Escherichia coli strain K12_sample1" = "Escherichia coli" ∧
    s_name_of "organism: Escherichia coli strain K12_sample1" = "strain K12_sample1" ∧
    s_name_of "organism: Escherichia" = "" :=
  ⟨by decide,
   (prokka_c1 _ (by decide)).1,
   (prokka_c1 "organism: Escherichia coli strain K12_sample1" (by decide)).2.1,
   by decide, by decide, by decide⟩
